import Mathlib

/-!
Verification development for the spree-proto repository.

The embedding covers:
* the SCALE binary codec as derived on the message types of
  `spree-lamport-clock/primitives/src/lib.rs` (little-endian fixed-width
  integers, compact length prefixes, length-prefixed byte vectors, tagged
  enums);
* the SPREE host environment of `polkadot-re-mock/src/spree.rs`
  (scratch buffer, linear-memory marshalling, ICMP accumulator, storage);
* the parachain host environment of `polkadot-re-mock/src/parachain.rs`
  (the `call_spree` dispatch);
* the guest lamport-clock module of `spree-lamport-clock/src/lib.rs`,
  `ext.rs` and `storage.rs`.

Bytes are modelled as `Nat`; every encoder below only produces values
below 256, so nothing is lost.  Rust `HashMap`s are modelled as
association lists whose `insert` replaces an existing binding in place
(observed through lookups, for which the representation is irrelevant).
-/

namespace Spree

/-! ## Little-endian fixed-width integers (`u32`/`u64` in SCALE) -/

/-- The `w`-byte little-endian encoding of `n % 256 ^ w`. -/
def toLE : Nat → Nat → List Nat
  | 0, _ => []
  | w + 1, n => n % 256 :: toLE w (n / 256)

/-- Little-endian byte-list readback. -/
def fromLE : List Nat → Nat
  | [] => 0
  | b :: bs => b + 256 * fromLE bs

/-- Fixed-width decoder: reads exactly `w` bytes, little-endian. -/
def decFixed (w : Nat) (bs : List Nat) : Option (Nat × List Nat) :=
  if w ≤ bs.length then some (fromLE (bs.take w), bs.drop w) else none

def encU32 (n : Nat) : List Nat := toLE 4 n
def encU64 (n : Nat) : List Nat := toLE 8 n
def decU32 (bs : List Nat) : Option (Nat × List Nat) := decFixed 4 bs
def decU64 (bs : List Nat) : Option (Nat × List Nat) := decFixed 8 bs

/-! ## SCALE compact length prefix (`Compact<u32>`) -/

/-- SCALE compact encoding of `n` (defined for `n < 2 ^ 32`). -/
def encCompact (n : Nat) : List Nat :=
  if n < 64 then [4 * n]
  else if n < 16384 then toLE 2 (4 * n + 1)
  else if n < 1073741824 then toLE 4 (4 * n + 2)
  else 3 :: toLE 4 n

/-- SCALE compact decoding, mirroring `Compact::<u32>::decode`. -/
def decCompact (bs : List Nat) : Option (Nat × List Nat) :=
  match bs with
  | [] => none
  | b :: r =>
    if b % 4 = 0 then some (b / 4, r)
    else if b % 4 = 1 then
      match decFixed 1 r with
      | some (hi, r') => some ((b + 256 * hi) / 4, r')
      | none => none
    else if b % 4 = 2 then
      match decFixed 3 r with
      | some (hi, r') => some ((b + 256 * hi) / 4, r')
      | none => none
    else if b / 4 = 0 then decFixed 4 r else none

/-! ## Byte vectors and generic vectors -/

def encBytes (p : List Nat) : List Nat := encCompact p.length ++ p

def decBytes (bs : List Nat) : Option (List Nat × List Nat) :=
  match decCompact bs with
  | some (n, rest) =>
    if n ≤ rest.length then some (rest.take n, rest.drop n) else none
  | none => none

def encList {α : Type} (f : α → List Nat) (xs : List α) : List Nat :=
  encCompact xs.length ++ (xs.map f).flatten

/-- Decode exactly `n` elements with the element decoder `g`. -/
def decListN {α : Type} (g : List Nat → Option (α × List Nat)) :
    Nat → List Nat → Option (List α × List Nat)
  | 0, bs => some ([], bs)
  | n + 1, bs =>
    match g bs with
    | some (a, bs') =>
      match decListN g n bs' with
      | some (as, bs'') => some (a :: as, bs'')
      | none => none
    | none => none

def decList {α : Type} (g : List Nat → Option (α × List Nat)) (bs : List Nat) :
    Option (List α × List Nat) :=
  match decCompact bs with
  | some (n, bs') => decListN g n bs'
  | none => none

/-! ## Message types (`spree-lamport-clock/primitives/src/lib.rs`) -/

/-- Rust `TimestampedMsg { at: Timestamp, payload: Vec<u8> }`. -/
structure TimestampedMsg where
  «at» : Nat
  payload : List Nat
  deriving DecidableEq, Repr

/-- Rust `TargetedMsg { recepient: ParaId, msg: TimestampedMsg }` (sic). -/
structure TargetedMsg where
  recepient : Nat
  msg : TimestampedMsg
  deriving DecidableEq, Repr

/-- Rust `Req`: tagged request union decoded from the seeded scratch buffer. -/
inductive Req where
  | Enqueue (recepient : Nat) (payload : List Nat)
  | Poll
  | FanOut
  deriving DecidableEq, Repr

def encTimestamped (m : TimestampedMsg) : List Nat :=
  encU64 m.«at» ++ encBytes m.payload

def decTimestamped (bs : List Nat) : Option (TimestampedMsg × List Nat) :=
  match decU64 bs with
  | some (t, bs₁) =>
    match decBytes bs₁ with
    | some (p, bs₂) => some (⟨t, p⟩, bs₂)
    | none => none
  | none => none

def encTargeted (t : TargetedMsg) : List Nat :=
  encU32 t.recepient ++ encTimestamped t.msg

def decTargeted (bs : List Nat) : Option (TargetedMsg × List Nat) :=
  match decU32 bs with
  | some (r, bs₁) =>
    match decTimestamped bs₁ with
    | some (m, bs₂) => some (⟨r, m⟩, bs₂)
    | none => none
  | none => none

/-- Encoding of `(ParaId, Vec<u8>)` pairs, as encoded by the host `poll` arm. -/
def encPair (p : Nat × List Nat) : List Nat := encU32 p.1 ++ encBytes p.2

def decPair (bs : List Nat) : Option ((Nat × List Nat) × List Nat) :=
  match decU32 bs with
  | some (a, bs₁) =>
    match decBytes bs₁ with
    | some (b, bs₂) => some ((a, b), bs₂)
    | none => none
  | none => none

def encReq : Req → List Nat
  | Req.Enqueue r p => 0 :: (encU32 r ++ encBytes p)
  | Req.Poll => [1]
  | Req.FanOut => [2]

def decReq (bs : List Nat) : Option (Req × List Nat) :=
  match bs with
  | [] => none
  | t :: rest =>
    if t = 0 then
      match decU32 rest with
      | some (r, rest₁) =>
        match decBytes rest₁ with
        | some (p, rest₂) => some (Req.Enqueue r p, rest₂)
        | none => none
      | none => none
    else if t = 1 then some (Req.Poll, rest)
    else if t = 2 then some (Req.FanOut, rest)
    else none

/-- Well-formedness of a timestamped message: the values fit the Rust
integer widths (any message decoded from real bytes satisfies this). -/
def TimestampedMsg.wf (m : TimestampedMsg) : Prop :=
  m.«at» < 2 ^ 64 ∧ m.payload.length < 2 ^ 32

instance (m : TimestampedMsg) : Decidable m.wf := by
  unfold TimestampedMsg.wf
  exact inferInstance

def TargetedMsg.wf (t : TargetedMsg) : Prop :=
  t.recepient < 2 ^ 32 ∧ t.msg.wf

instance (t : TargetedMsg) : Decidable t.wf := by
  unfold TargetedMsg.wf
  exact inferInstance

/-! ## Association-list maps (model of the Rust `HashMap`s) -/

/-- Lookup in an association list (`HashMap::get`). -/
def alLookup {α β : Type} [DecidableEq α] (k : α) : List (α × β) → Option β
  | [] => none
  | (k', v) :: rest => if k = k' then some v else alLookup k rest

/-- Rust `HashMap::insert`: replace an existing binding, else append. -/
def mapInsert {α β : Type} [DecidableEq α] (k : α) (v : β) :
    List (α × β) → List (α × β)
  | [] => [(k, v)]
  | (k', v') :: rest =>
    if k = k' then (k, v) :: rest else (k', v') :: mapInsert k v rest

def alKeys {α β : Type} (m : List (α × β)) : List α := m.map Prod.fst

/-! ## Persistent per-module state and per-invocation state -/

/-- The state a SPREE module keeps across invocations
(`SpreeModule`: `storage` plus the `SpreeIcmpAccumulator`). -/
structure ModuleState where
  storage : List (List Nat × List Nat)
  inbound : List (Nat × List Nat)
  outbound : List (Nat × List Nat)
  deriving DecidableEq, Repr

/-- Call-scoped view of the guest module: the scratch buffer seeded with
the request blob, the persistent module state, and an event log of the
host `send` calls issued during this invocation (used to state how many
sends a request produces). -/
structure InvState where
  scratch : List Nat
  mod : ModuleState
  sends : List (Nat × List Nat)
  deriving DecidableEq, Repr

/-! ## Guest-side host-call wrappers (`spree-lamport-clock/src/ext.rs`
composed with the corresponding `invoke_index` arms of
`polkadot-re-mock/src/spree.rs`).  The guest passes slices of its own
memory, so the marshalling step always succeeds here; the marshalling
layer itself is modelled separately below on `HostEnv`. -/

/-- Guest `ext::scratch_buf_read`: query the size, copy the buffer out. -/
def scratch_buf_read (s : InvState) : List Nat := s.scratch

/-- Guest `ext::storage_read`: status 0 means found, with the value left in the
scratch buffer and copied out; non-zero means absent. -/
def ext_storage_read (s : InvState) (key : List Nat) :
    Option (List Nat) × InvState :=
  match alLookup key s.mod.storage with
  | some v => (some v, { s with scratch := v })
  | none => (none, s)

/-- Guest `ext::storage_write`. -/
def ext_storage_write (s : InvState) (key val : List Nat) : InvState :=
  { s with mod := { s.mod with storage := mapInsert key val s.mod.storage } }

/-- Guest `ext::send`: the host inserts the blob into the outbound accumulator
slot and reports a non-zero status on conflict; the guest-side wrapper
drops that status (`ffi::send(..)` with its result unused). -/
def ext_send (s : InvState) (recepient : Nat) (blob : List Nat) : InvState :=
  { s with
    mod := { s.mod with outbound := mapInsert recepient blob s.mod.outbound }
    sends := s.sends ++ [(recepient, blob)] }

/-! ## Storage helpers (`spree-lamport-clock/src/storage.rs`) -/

/-- Bytes of `b":current_timestamp"`. -/
def KEY_CURRENT_TIMESTAMP : List Nat :=
  [58, 99, 117, 114, 114, 101, 110, 116, 95, 116, 105, 109, 101, 115, 116,
   97, 109, 112]

/-- Bytes of `b":stack"`. -/
def KEY_QUEUE : List Nat := [58, 115, 116, 97, 99, 107]

/-- Function `timestamp::current_timestamp`: read, decode with `.ok()`, default 0. -/
def current_timestamp (s : InvState) : Nat × InvState :=
  match ext_storage_read s KEY_CURRENT_TIMESTAMP with
  | (some raw, s') =>
    match decU64 raw with
    | some t => (t.1, s')
    | none => (0, s')
  | (none, s') => (0, s')

def set_current_timestamp (s : InvState) (t : Nat) : InvState :=
  ext_storage_write s KEY_CURRENT_TIMESTAMP (encU64 t)

def next_timestamp (s : InvState) : Nat × InvState :=
  let c := current_timestamp s
  (c.1 + 1, set_current_timestamp c.2 (c.1 + 1))

/-- Function `message_queue::read_queue`: read, decode with `.ok()`, default `[]`. -/
def read_queue (s : InvState) : List TargetedMsg × InvState :=
  match ext_storage_read s KEY_QUEUE with
  | (some raw, s') =>
    match decList decTargeted raw with
    | some q => (q.1, s')
    | none => ([], s')
  | (none, s') => ([], s')

def write_queue (s : InvState) (q : List TargetedMsg) : InvState :=
  ext_storage_write s KEY_QUEUE (encList encTargeted q)

def enqueue_msg (s : InvState) (msg : TargetedMsg) : InvState :=
  let rq := read_queue s
  write_queue rq.2 (rq.1 ++ [msg])

def take_queue (s : InvState) : List TargetedMsg × InvState :=
  let rq := read_queue s
  (rq.1, write_queue rq.2 [])

/-! ## Pure observers of the persisted fields -/

/-- The persisted Timestamp as the module reads it back from a storage. -/
def storedTimestampOf (st : List (List Nat × List Nat)) : Nat :=
  match alLookup KEY_CURRENT_TIMESTAMP st with
  | some raw =>
    match decU64 raw with
    | some t => t.1
    | none => 0
  | none => 0

/-- The persisted Timestamp of a module state. -/
def storedTimestamp (m : ModuleState) : Nat := storedTimestampOf m.storage

/-- The persisted Pending Queue as the module reads it back. -/
def storedQueueOf (st : List (List Nat × List Nat)) : List TargetedMsg :=
  match alLookup KEY_QUEUE st with
  | some raw =>
    match decList decTargeted raw with
    | some q => q.1
    | none => []
  | none => []

/-- The persisted Pending Queue of a module state. -/
def storedQueue (m : ModuleState) : List TargetedMsg := storedQueueOf m.storage

/-! ## The lamport-clock entry point (`spree-lamport-clock/src/lib.rs`) -/

/-- The step of `fold(HashMap::new(), |acc, ..| acc.entry(r).or_insert(vec![]).push(m))`
for a single message: append to the recipient's group, creating it if
absent. -/
def entryPush (acc : List (Nat × List TimestampedMsg)) (k : Nat)
    (v : TimestampedMsg) : List (Nat × List TimestampedMsg) :=
  match acc with
  | [] => [(k, [v])]
  | (k', vs) :: rest =>
    if k = k' then (k', vs ++ [v]) :: rest else (k', vs) :: entryPush rest k v

/-- Group the drained queue by recipient, preserving enqueue order. -/
def groupByRecepient (msgs : List TargetedMsg) :
    List (Nat × List TimestampedMsg) :=
  msgs.foldl (fun acc t => entryPush acc t.recepient t.msg) []

/-- The `for (recepient, msgs) in msg_by_recepient` send loop. -/
def sendGroups (s : InvState) (groups : List (Nat × List TimestampedMsg)) :
    InvState :=
  groups.foldl (fun acc g => ext_send acc g.1 (encList encTimestamped g.2)) s

/-- Entry point `handle`: decode the request from the seeded scratch buffer
(with `.unwrap()`, so `none` models the fatal trap) and dispatch. -/
def handle (s : InvState) : Option InvState :=
  match decReq (scratch_buf_read s) with
  | none => none
  | some (req, _) =>
    match req with
    | Req.Enqueue recepient payload =>
      let ts := next_timestamp s
      some (enqueue_msg ts.2 ⟨recepient, ⟨ts.1, payload⟩⟩)
    | Req.Poll =>
      let s₁ := { s with scratch := encList encPair s.mod.inbound }
      match decList decPair s₁.scratch with
      | none => none
      | some (pairs, _) =>
        if pairs.all (fun p => (decList decTimestamped p.2).isSome)
        then some s₁ else none
    | Req.FanOut =>
      let tq := take_queue s
      some (sendGroups tq.2 (groupByRecepient tq.1))

/-- Host `SpreeModule::invoke`: seed the scratch buffer with the blob and run
the `handle` export; the time slice is passed through and unused. -/
def invoke (m : ModuleState) (_time_slice : Nat) (blob : List Nat) :
    Option ModuleState :=
  (handle { scratch := blob, mod := m, sends := [] }).map InvState.mod

/-- Iterate one `Enqueue` invocation per `(recepient, payload)` pair. -/
def enqueueList (ts0 : Nat) (m : ModuleState) :
    List (Nat × List Nat) → Option ModuleState
  | [] => some m
  | rp :: rest =>
    match invoke m ts0 (encReq (Req.Enqueue rp.1 rp.2)) with
    | some m' => enqueueList ts0 m' rest
    | none => none

/-- The entries a run of `Enqueue`s appends, given the pre-timestamp. -/
def newEntries (base : Nat) : List (Nat × List Nat) → List TargetedMsg
  | [] => []
  | rp :: rest => ⟨rp.1, ⟨base + 1, rp.2⟩⟩ :: newEntries (base + 1) rest

/-! ## Memory-level host environment (`polkadot-re-mock/src/spree.rs`) -/

/-- Memory read `MemoryInstance::get`: fails if the range exceeds the memory size. -/
def memGet (mem : List Nat) (ptr len : Nat) : Option (List Nat) :=
  if ptr + len ≤ mem.length then some ((mem.drop ptr).take len) else none

/-- Memory write `MemoryInstance::set`: same failure mode. -/
def memSet (mem : List Nat) (ptr : Nat) (data : List Nat) :
    Option (List Nat) :=
  if ptr + data.length ≤ mem.length then
    some (mem.take ptr ++ data ++ mem.drop (ptr + data.length))
  else none

/-- Struct `SpreeModuleHostEnv`: scratch buffer, the guest's linear memory, and
the module's accumulator and storage. -/
structure HostEnv where
  scratch_buf : List Nat
  mem : List Nat
  inbound : List (Nat × List Nat)
  outbound : List (Nat × List Nat)
  storage : List (List Nat × List Nat)
  deriving DecidableEq, Repr

/-- Constructor `SpreeModuleHostEnv::new`: the scratch buffer is seeded with `blob`. -/
def mkHostEnv (blob mem : List Nat) (inb outb : List (Nat × List Nat))
    (st : List (List Nat × List Nat)) : HostEnv :=
  { scratch_buf := blob, mem := mem, inbound := inb, outbound := outb,
    storage := st }

/-- The `SCRATCH_BUF_SIZE` arm. -/
def host_scratch_buf_size (e : HostEnv) : Nat := e.scratch_buf.length

/-- The `SCRATCH_BUF_READ` arm: `none` models the out-of-bounds trap. -/
def host_scratch_buf_read (e : HostEnv) (out_ptr : Nat) : Option HostEnv :=
  match memSet e.mem out_ptr e.scratch_buf with
  | some mem' => some { e with mem := mem' }
  | none => none

/-- The `SEND` arm: marshal the blob, insert it into the outbound slot, and
report a non-zero status when the slot was occupied. -/
def host_send (e : HostEnv) (recepient blob_ptr blob_len : Nat) :
    Option (HostEnv × Nat) :=
  match memGet e.mem blob_ptr blob_len with
  | some blob =>
    match alLookup recepient e.outbound with
    | some _ =>
      some ({ e with outbound := mapInsert recepient blob e.outbound }, 1)
    | none =>
      some ({ e with outbound := mapInsert recepient blob e.outbound }, 0)
  | none => none

/-- The `POLL` arm: overwrite the scratch buffer with the encoded inbound
accumulator. -/
def host_poll (e : HostEnv) : HostEnv :=
  { e with scratch_buf := encList encPair e.inbound }

/-- The `STORAGE_READ` arm: on a hit the value replaces the scratch buffer and
the status is 0; on a miss the status is 1 and nothing changes. -/
def host_storage_read (e : HostEnv) (key_ptr key_len : Nat) :
    Option (HostEnv × Nat) :=
  match memGet e.mem key_ptr key_len with
  | some key =>
    match alLookup key e.storage with
    | some v => some ({ e with scratch_buf := v }, 0)
    | none => some (e, 1)
  | none => none

/-- The `STORAGE_WRITE` arm. -/
def host_storage_write (e : HostEnv) (key_ptr key_len val_ptr val_len : Nat) :
    Option HostEnv :=
  match memGet e.mem key_ptr key_len with
  | some key =>
    match memGet e.mem val_ptr val_len with
    | some val => some { e with storage := mapInsert key val e.storage }
    | none => none
  | none => none

/-! ## Parachain host environment (`polkadot-re-mock/src/parachain.rs`) -/

inductive CallSpreeError where
  | OutOfBounds
  | HandleNotFound
  | ModuleTrap
  deriving DecidableEq, Repr

/-- The `CALL_SPREE` arm: copy the blob from the parachain's memory, look
up the handle, and forward `(time_slice, blob)` to that module's
`invoke`. -/
def call_spree (mem : List Nat) (modules : List ModuleState)
    (handle_ time_slice blob_ptr blob_len : Nat) :
    Except CallSpreeError (List ModuleState) :=
  match memGet mem blob_ptr blob_len with
  | none => Except.error CallSpreeError.OutOfBounds
  | some blob =>
    match modules.get? handle_ with
    | none => Except.error CallSpreeError.HandleNotFound
    | some m =>
      match invoke m time_slice blob with
      | some m' => Except.ok (modules.set handle_ m')
      | none => Except.error CallSpreeError.ModuleTrap

/-! ## Codec round-trip lemmas -/

theorem toLE_length (w n : Nat) : (toLE w n).length = w := by
  induction w generalizing n with
  | zero => rfl
  | succ w ih => simp [toLE, ih]

theorem fromLE_toLE (w n : Nat) : fromLE (toLE w n) = n % 256 ^ w := by
  induction w generalizing n with
  | zero => simp [toLE, fromLE, Nat.mod_one]
  | succ w ih =>
    rw [toLE, fromLE, ih, pow_succ']
    exact Nat.mod_mul.symm

theorem take_append_of_length {α : Type} (l₁ l₂ : List α) (w : Nat)
    (h : l₁.length = w) : (l₁ ++ l₂).take w = l₁ := by
  subst h; exact List.take_left l₁ l₂

theorem drop_append_of_length {α : Type} (l₁ l₂ : List α) (w : Nat)
    (h : l₁.length = w) : (l₁ ++ l₂).drop w = l₂ := by
  subst h; exact List.drop_left l₁ l₂

theorem decFixed_toLE (w n : Nat) (r : List Nat) :
    decFixed w (toLE w n ++ r) = some (n % 256 ^ w, r) := by
  unfold decFixed
  rw [if_pos (by rw [List.length_append, toLE_length]; omega)]
  rw [take_append_of_length _ _ _ (toLE_length w n),
    drop_append_of_length _ _ _ (toLE_length w n), fromLE_toLE]

theorem decU64_encU64 (n : Nat) (h : n < 2 ^ 64) :
    decU64 (encU64 n) = some (n, []) := by
  have : decU64 (encU64 n) = decFixed 8 (toLE 8 n ++ []) := by
    simp [decU64, encU64]
  rw [this, decFixed_toLE]
  have h8 : (256 : Nat) ^ 8 = 2 ^ 64 := by norm_num
  rw [h8, Nat.mod_eq_of_lt h]

theorem decCompact_enc (n : Nat) (h : n < 2 ^ 32) (r : List Nat) :
    decCompact (encCompact n ++ r) = some (n, r) := by
  unfold encCompact
  by_cases h1 : n < 64
  · rw [if_pos h1]
    simp only [List.singleton_append, decCompact]
    rw [if_pos (by omega : 4 * n % 4 = 0)]
    have : 4 * n / 4 = n := by omega
    rw [this]
  · rw [if_neg h1]
    by_cases h2 : n < 16384
    · rw [if_pos h2]
      rw [show toLE 2 (4 * n + 1) =
        (4 * n + 1) % 256 :: toLE 1 ((4 * n + 1) / 256) from rfl]
      simp only [List.cons_append, decCompact]
      rw [if_neg (by omega), if_pos (by omega)]
      rw [decFixed_toLE 1 ((4 * n + 1) / 256) r]
      simp only [pow_one]
      have : ((4 * n + 1) % 256 + 256 * ((4 * n + 1) / 256 % 256)) / 4 = n := by
        omega
      rw [this]
    · rw [if_neg h2]
      by_cases h3 : n < 1073741824
      · rw [if_pos h3]
        rw [show toLE 4 (4 * n + 2) =
          (4 * n + 2) % 256 :: toLE 3 ((4 * n + 2) / 256) from rfl]
        simp only [List.cons_append, decCompact]
        rw [if_neg (by omega), if_neg (by omega), if_pos (by omega)]
        rw [decFixed_toLE 3 ((4 * n + 2) / 256) r]
        show some (((4 * n + 2) % 256 + 256 * ((4 * n + 2) / 256 % 256 ^ 3)) / 4,
          r) = some (n, r)
        have : ((4 * n + 2) % 256 + 256 * ((4 * n + 2) / 256 % 256 ^ 3)) / 4
            = n := by
          have h256 : (256 : Nat) ^ 3 = 16777216 := by norm_num
          rw [h256]; omega
        rw [this]
      · rw [if_neg h3]
        simp only [List.cons_append, decCompact]
        norm_num
        rw [decFixed_toLE 4 n r]
        have h256 : (256 : Nat) ^ 4 = 2 ^ 32 := by norm_num
        rw [h256, Nat.mod_eq_of_lt h]

theorem decBytes_enc (p : List Nat) (h : p.length < 2 ^ 32) (r : List Nat) :
    decBytes (encBytes p ++ r) = some (p, r) := by
  unfold encBytes decBytes
  rw [List.append_assoc, decCompact_enc p.length h]
  simp only [List.length_append, if_pos (Nat.le_add_right _ _)]
  rw [take_append_of_length p r p.length rfl,
    drop_append_of_length p r p.length rfl]

theorem decListN_enc {α : Type} (f : α → List Nat)
    (g : List Nat → Option (α × List Nat)) (xs : List α) (r : List Nat)
    (hfg : ∀ a ∈ xs, ∀ r', g (f a ++ r') = some (a, r')) :
    decListN g xs.length ((xs.map f).flatten ++ r) = some (xs, r) := by
  induction xs generalizing r with
  | nil => simp [decListN]
  | cons a as ih =>
    have ha := hfg a (by simp) ((List.map f as).flatten ++ r)
    have hrest := ih r (fun x hx r' => hfg x (by simp [hx]) r')
    simp only [List.map_cons, List.flatten_cons, List.length_cons,
      List.append_assoc, decListN, ha, hrest]

theorem decList_enc {α : Type} (f : α → List Nat)
    (g : List Nat → Option (α × List Nat)) (xs : List α) (r : List Nat)
    (hlen : xs.length < 2 ^ 32)
    (hfg : ∀ a ∈ xs, ∀ r', g (f a ++ r') = some (a, r')) :
    decList g (encList f xs ++ r) = some (xs, r) := by
  unfold encList decList
  rw [List.append_assoc, decCompact_enc xs.length hlen]
  exact decListN_enc f g xs r hfg

theorem decTimestamped_enc (m : TimestampedMsg) (h : m.wf) (r : List Nat) :
    decTimestamped (encTimestamped m ++ r) = some (m, r) := by
  obtain ⟨h1, h2⟩ := h
  unfold encTimestamped decTimestamped
  rw [List.append_assoc]
  rw [show decU64 (encU64 m.«at» ++ (encBytes m.payload ++ r))
      = decFixed 8 (toLE 8 m.«at» ++ (encBytes m.payload ++ r)) from rfl]
  rw [decFixed_toLE]
  have h8 : (256 : Nat) ^ 8 = 2 ^ 64 := by norm_num
  rw [h8, Nat.mod_eq_of_lt h1]
  simp only [decBytes_enc m.payload h2 r]

theorem decTargeted_enc (t : TargetedMsg) (h : t.wf) (r : List Nat) :
    decTargeted (encTargeted t ++ r) = some (t, r) := by
  obtain ⟨h1, h2⟩ := h
  unfold encTargeted decTargeted
  rw [List.append_assoc]
  rw [show decU32 (encU32 t.recepient ++ (encTimestamped t.msg ++ r))
      = decFixed 4 (toLE 4 t.recepient ++ (encTimestamped t.msg ++ r))
    from rfl]
  rw [decFixed_toLE]
  have h4 : (256 : Nat) ^ 4 = 2 ^ 32 := by norm_num
  rw [h4, Nat.mod_eq_of_lt h1]
  simp only [decTimestamped_enc t.msg h2 r]

theorem decVecTargeted_enc (q : List TargetedMsg) (hlen : q.length < 2 ^ 32)
    (hwf : ∀ t ∈ q, t.wf) :
    decList decTargeted (encList encTargeted q) = some (q, []) := by
  rw [show encList encTargeted q = encList encTargeted q ++ [] by simp]
  exact decList_enc _ _ q [] hlen (fun t ht r' => decTargeted_enc t (hwf t ht) r')

theorem decReq_enc_enqueue (rcp : Nat) (p : List Nat) (hr : rcp < 2 ^ 32)
    (hp : p.length < 2 ^ 32) :
    decReq (encReq (Req.Enqueue rcp p)) = some (Req.Enqueue rcp p, []) := by
  simp only [encReq, decReq, if_pos rfl]
  rw [show decU32 (encU32 rcp ++ encBytes p)
      = decFixed 4 (toLE 4 rcp ++ (encBytes p ++ [])) from by simp [decU32, encU32]]
  rw [decFixed_toLE]
  have h4 : (256 : Nat) ^ 4 = 2 ^ 32 := by norm_num
  rw [h4, Nat.mod_eq_of_lt hr]
  have hb : decBytes (encBytes p) = some (p, []) := by
    rw [show encBytes p = encBytes p ++ [] by simp]
    exact decBytes_enc p hp []
  simp [hb]

theorem decReq_enc_fanout : decReq (encReq Req.FanOut) = some (Req.FanOut, []) :=
  rfl

/-! ## Association-list lemmas -/

theorem alLookup_mapInsert_self {α β : Type} [DecidableEq α] (k : α) (v : β)
    (m : List (α × β)) : alLookup k (mapInsert k v m) = some v := by
  induction m with
  | nil => simp [mapInsert, alLookup]
  | cons kv rest ih =>
    obtain ⟨k', v'⟩ := kv
    by_cases h : k = k'
    · simp [mapInsert, h, alLookup]
    · simp only [mapInsert, if_neg h, alLookup, ih]

theorem alLookup_mapInsert_ne {α β : Type} [DecidableEq α] (k k' : α) (v : β)
    (m : List (α × β)) (h : k ≠ k') :
    alLookup k (mapInsert k' v m) = alLookup k m := by
  induction m with
  | nil => simp [mapInsert, alLookup, h]
  | cons kv rest ih =>
    obtain ⟨k'', v''⟩ := kv
    by_cases h2 : k' = k''
    · subst h2
      simp only [mapInsert, if_pos rfl, alLookup, if_neg h]
    · simp only [mapInsert, if_neg h2, alLookup]
      by_cases h3 : k = k''
      · simp [h3]
      · simp [h3, ih]

theorem mem_alKeys {α β : Type} (k : α) (v : β) (m : List (α × β))
    (h : (k, v) ∈ m) : k ∈ alKeys m := by
  simp only [alKeys, List.mem_map]
  exact ⟨(k, v), h, rfl⟩

theorem key_ts_ne_queue : KEY_CURRENT_TIMESTAMP ≠ KEY_QUEUE := by decide

/-! ## Pipeline lemmas for the guest-side operations -/

theorem ext_storage_read_snd_mod (s : InvState) (key : List Nat) :
    (ext_storage_read s key).2.mod = s.mod := by
  unfold ext_storage_read
  rcases h : alLookup key s.mod.storage with _ | v <;> simp [h]

theorem ext_storage_read_snd_sends (s : InvState) (key : List Nat) :
    (ext_storage_read s key).2.sends = s.sends := by
  unfold ext_storage_read
  rcases h : alLookup key s.mod.storage with _ | v <;> simp [h]

theorem current_timestamp_fst (s : InvState) :
    (current_timestamp s).1 = storedTimestamp s.mod := by
  unfold current_timestamp ext_storage_read storedTimestamp storedTimestampOf
  rcases h : alLookup KEY_CURRENT_TIMESTAMP s.mod.storage with _ | raw
  · simp [h]
  · simp only [h]
    rcases h2 : decU64 raw with _ | t <;> simp [h2]

theorem current_timestamp_snd_mod (s : InvState) :
    (current_timestamp s).2.mod = s.mod := by
  unfold current_timestamp ext_storage_read
  rcases h : alLookup KEY_CURRENT_TIMESTAMP s.mod.storage with _ | raw
  · simp [h]
  · simp only [h]
    rcases h2 : decU64 raw with _ | t <;> simp [h2]

theorem current_timestamp_snd_sends (s : InvState) :
    (current_timestamp s).2.sends = s.sends := by
  unfold current_timestamp ext_storage_read
  rcases h : alLookup KEY_CURRENT_TIMESTAMP s.mod.storage with _ | raw
  · simp [h]
  · simp only [h]
    rcases h2 : decU64 raw with _ | t <;> simp [h2]

theorem next_timestamp_fst (s : InvState) :
    (next_timestamp s).1 = storedTimestamp s.mod + 1 := by
  unfold next_timestamp
  simp [current_timestamp_fst]

theorem next_timestamp_snd_mod (s : InvState) :
    (next_timestamp s).2.mod =
      { s.mod with
        storage := mapInsert KEY_CURRENT_TIMESTAMP
          (encU64 (storedTimestamp s.mod + 1)) s.mod.storage } := by
  unfold next_timestamp set_current_timestamp ext_storage_write
  simp [current_timestamp_fst, current_timestamp_snd_mod]

theorem next_timestamp_snd_sends (s : InvState) :
    (next_timestamp s).2.sends = s.sends := by
  unfold next_timestamp set_current_timestamp ext_storage_write
  simp [current_timestamp_snd_sends]

theorem read_queue_fst (s : InvState) :
    (read_queue s).1 = storedQueue s.mod := by
  unfold read_queue ext_storage_read storedQueue storedQueueOf
  rcases h : alLookup KEY_QUEUE s.mod.storage with _ | raw
  · simp [h]
  · simp only [h]
    rcases h2 : decList decTargeted raw with _ | q <;> simp [h2]

theorem read_queue_snd_mod (s : InvState) :
    (read_queue s).2.mod = s.mod := by
  unfold read_queue ext_storage_read
  rcases h : alLookup KEY_QUEUE s.mod.storage with _ | raw
  · simp [h]
  · simp only [h]
    rcases h2 : decList decTargeted raw with _ | q <;> simp [h2]

theorem read_queue_snd_sends (s : InvState) :
    (read_queue s).2.sends = s.sends := by
  unfold read_queue ext_storage_read
  rcases h : alLookup KEY_QUEUE s.mod.storage with _ | raw
  · simp [h]
  · simp only [h]
    rcases h2 : decList decTargeted raw with _ | q <;> simp [h2]

theorem enqueue_msg_mod (s : InvState) (msg : TargetedMsg) :
    (enqueue_msg s msg).mod =
      { s.mod with
        storage := mapInsert KEY_QUEUE
          (encList encTargeted (storedQueue s.mod ++ [msg]))
          s.mod.storage } := by
  unfold enqueue_msg write_queue ext_storage_write
  simp [read_queue_fst, read_queue_snd_mod]

theorem enqueue_msg_sends (s : InvState) (msg : TargetedMsg) :
    (enqueue_msg s msg).sends = s.sends := by
  unfold enqueue_msg write_queue ext_storage_write
  simp [read_queue_snd_sends]

theorem take_queue_fst (s : InvState) :
    (take_queue s).1 = storedQueue s.mod := by
  unfold take_queue
  simp [read_queue_fst]

theorem take_queue_snd_mod (s : InvState) :
    (take_queue s).2.mod =
      { s.mod with
        storage := mapInsert KEY_QUEUE (encList encTargeted [])
          s.mod.storage } := by
  unfold take_queue write_queue ext_storage_write
  simp [read_queue_snd_mod]

theorem take_queue_snd_sends (s : InvState) :
    (take_queue s).2.sends = s.sends := by
  unfold take_queue write_queue ext_storage_write
  simp [read_queue_snd_sends]

theorem storedTimestampOf_insert_queue (st : List (List Nat × List Nat))
    (v : List Nat) :
    storedTimestampOf (mapInsert KEY_QUEUE v st) = storedTimestampOf st := by
  unfold storedTimestampOf
  rw [alLookup_mapInsert_ne _ _ _ _ key_ts_ne_queue]

theorem storedTimestampOf_insert_self (st : List (List Nat × List Nat))
    (t : Nat) (ht : t < 2 ^ 64) :
    storedTimestampOf (mapInsert KEY_CURRENT_TIMESTAMP (encU64 t) st) = t := by
  unfold storedTimestampOf
  rw [alLookup_mapInsert_self]
  simp [decU64_encU64 t ht]

theorem storedQueueOf_insert_ts (st : List (List Nat × List Nat))
    (v : List Nat) :
    storedQueueOf (mapInsert KEY_CURRENT_TIMESTAMP v st) = storedQueueOf st := by
  unfold storedQueueOf
  rw [alLookup_mapInsert_ne _ _ _ _ (Ne.symm key_ts_ne_queue)]

theorem storedQueueOf_insert_self (st : List (List Nat × List Nat))
    (q : List TargetedMsg) (hlen : q.length < 2 ^ 32)
    (hwf : ∀ t ∈ q, t.wf) :
    storedQueueOf (mapInsert KEY_QUEUE (encList encTargeted q) st) = q := by
  unfold storedQueueOf
  rw [alLookup_mapInsert_self]
  simp [decVecTargeted_enc q hlen hwf]

theorem storedQueue_insert_ts (m : ModuleState) (v : List Nat) :
    storedQueue
        { m with storage := mapInsert KEY_CURRENT_TIMESTAMP v m.storage }
      = storedQueue m :=
  storedQueueOf_insert_ts m.storage v

/-! ## `handle` case equations -/

theorem handle_enqueue_eq (s : InvState) (rcp : Nat) (p rest : List Nat)
    (h : decReq s.scratch = some (Req.Enqueue rcp p, rest)) :
    handle s =
      some (enqueue_msg (next_timestamp s).2 ⟨rcp, ⟨(next_timestamp s).1, p⟩⟩) := by
  unfold handle scratch_buf_read
  rw [h]

theorem handle_fanout_eq (s : InvState) (rest : List Nat)
    (h : decReq s.scratch = some (Req.FanOut, rest)) :
    handle s =
      some (sendGroups (take_queue s).2 (groupByRecepient (take_queue s).1)) := by
  unfold handle scratch_buf_read
  rw [h]

theorem handle_decode_fail (s : InvState) (h : decReq s.scratch = none) :
    handle s = none := by
  unfold handle scratch_buf_read
  rw [h]

/-! ## `sendGroups` fold lemmas -/

theorem sendGroups_sends (s : InvState)
    (gs : List (Nat × List TimestampedMsg)) :
    (sendGroups s gs).sends =
      s.sends ++ gs.map (fun g => (g.1, encList encTimestamped g.2)) := by
  induction gs generalizing s with
  | nil => simp [sendGroups]
  | cons g gs ih =>
    show (sendGroups (ext_send s g.1 (encList encTimestamped g.2)) gs).sends = _
    rw [ih]
    simp [ext_send]

theorem sendGroups_storage (s : InvState)
    (gs : List (Nat × List TimestampedMsg)) :
    (sendGroups s gs).mod.storage = s.mod.storage := by
  induction gs generalizing s with
  | nil => simp [sendGroups]
  | cons g gs ih =>
    show (sendGroups (ext_send s g.1 (encList encTimestamped g.2)) gs).mod.storage = _
    rw [ih]
    simp [ext_send]

theorem sendGroups_inbound (s : InvState)
    (gs : List (Nat × List TimestampedMsg)) :
    (sendGroups s gs).mod.inbound = s.mod.inbound := by
  induction gs generalizing s with
  | nil => simp [sendGroups]
  | cons g gs ih =>
    show (sendGroups (ext_send s g.1 (encList encTimestamped g.2)) gs).mod.inbound = _
    rw [ih]
    simp [ext_send]

theorem sendGroups_outbound_notmem (s : InvState)
    (gs : List (Nat × List TimestampedMsg)) (r : Nat)
    (h : r ∉ alKeys gs) :
    alLookup r (sendGroups s gs).mod.outbound =
      alLookup r s.mod.outbound := by
  induction gs generalizing s with
  | nil => simp [sendGroups]
  | cons g gs ih =>
    simp only [alKeys, List.map_cons, List.mem_cons, not_or] at h
    show alLookup r
      (sendGroups (ext_send s g.1 (encList encTimestamped g.2)) gs).mod.outbound = _
    rw [ih _ (by simpa [alKeys] using h.2)]
    simp only [ext_send]
    exact alLookup_mapInsert_ne _ _ _ _ h.1

theorem sendGroups_outbound_mem (s : InvState)
    (gs : List (Nat × List TimestampedMsg)) (r : Nat)
    (vs : List TimestampedMsg) (hnd : (alKeys gs).Nodup)
    (hmem : (r, vs) ∈ gs) :
    alLookup r (sendGroups s gs).mod.outbound =
      some (encList encTimestamped vs) := by
  induction gs generalizing s with
  | nil => cases hmem
  | cons g gs ih =>
    simp only [alKeys, List.map_cons, List.nodup_cons] at hnd
    rcases List.mem_cons.mp hmem with heq | hmem'
    · subst heq
      show alLookup r
        (sendGroups (ext_send s r (encList encTimestamped vs)) gs).mod.outbound = _
      rw [sendGroups_outbound_notmem _ _ _ (by simpa [alKeys] using hnd.1)]
      simp only [ext_send]
      exact alLookup_mapInsert_self _ _ _
    · have hr : r ∈ alKeys gs := mem_alKeys r vs gs hmem'
      show alLookup r
        (sendGroups (ext_send s g.1 (encList encTimestamped g.2)) gs).mod.outbound = _
      exact ih _ (by simpa [alKeys] using hnd.2) hmem'

/-! ## Grouping lemmas -/

theorem alKeys_entryPush (acc : List (Nat × List TimestampedMsg)) (k : Nat)
    (v : TimestampedMsg) :
    alKeys (entryPush acc k v) =
      if k ∈ alKeys acc then alKeys acc else alKeys acc ++ [k] := by
  induction acc with
  | nil => simp [entryPush, alKeys]
  | cons g rest ih =>
    obtain ⟨k', vs⟩ := g
    by_cases h : k = k'
    · subst h
      simp [entryPush, alKeys]
    · simp only [entryPush, if_neg h, alKeys, List.map_cons] at ih ⊢
      rw [ih]
      by_cases h2 : k ∈ List.map Prod.fst rest
      · simp [h2, List.mem_cons, h]
      · simp [h2, List.mem_cons, h]

theorem nodup_alKeys_entryPush (acc : List (Nat × List TimestampedMsg))
    (k : Nat) (v : TimestampedMsg) (h : (alKeys acc).Nodup) :
    (alKeys (entryPush acc k v)).Nodup := by
  rw [alKeys_entryPush]
  by_cases h2 : k ∈ alKeys acc
  · simp [h2, h]
  · simp [h2, List.nodup_append, h]

theorem nodup_alKeys_groupBy (msgs : List TargetedMsg) :
    (alKeys (groupByRecepient msgs)).Nodup := by
  suffices h : ∀ acc : List (Nat × List TimestampedMsg), (alKeys acc).Nodup →
      (alKeys (msgs.foldl (fun acc t => entryPush acc t.recepient t.msg)
        acc)).Nodup from
    h [] (by simp [alKeys])
  induction msgs with
  | nil => intro acc hacc; simpa using hacc
  | cons t ts ih =>
    intro acc hacc
    exact ih _ (nodup_alKeys_entryPush acc _ _ hacc)

/-! ## `newEntries` lemmas -/

theorem newEntries_length (base : Nat) (reqs : List (Nat × List Nat)) :
    (newEntries base reqs).length = reqs.length := by
  induction reqs generalizing base with
  | nil => rfl
  | cons rp rest ih => simp [newEntries, ih]

theorem newEntries_at_gt (base : Nat) (reqs : List (Nat × List Nat)) :
    ∀ x ∈ newEntries base reqs, base < x.msg.«at» := by
  induction reqs generalizing base with
  | nil => simp [newEntries]
  | cons rp rest ih =>
    intro x hx
    rcases List.mem_cons.mp hx with heq | hmem
    · subst heq; simp
    · have := ih (base + 1) x hmem
      omega

theorem newEntries_pairwise (base : Nat) (reqs : List (Nat × List Nat)) :
    (newEntries base reqs).Pairwise
      (fun a b => a.msg.«at» < b.msg.«at») := by
  induction reqs generalizing base with
  | nil => simp [newEntries]
  | cons rp rest ih =>
    refine List.Pairwise.cons ?_ (ih (base + 1))
    intro x hx
    have := newEntries_at_gt (base + 1) rest x hx
    simpa using by omega

/-! ## The effect of one `Enqueue` invocation -/

theorem handle_enqueue_spec (blob : List Nat) (m : ModuleState)
    (sends0 : List (Nat × List Nat)) (rcp : Nat) (p rest : List Nat)
    (hdec : decReq blob = some (Req.Enqueue rcp p, rest)) :
    ∃ s', handle ⟨blob, m, sends0⟩ = some s' ∧
      s'.mod =
        { m with
          storage := mapInsert KEY_QUEUE
            (encList encTargeted
              (storedQueue m ++ [⟨rcp, ⟨storedTimestamp m + 1, p⟩⟩]))
            (mapInsert KEY_CURRENT_TIMESTAMP
              (encU64 (storedTimestamp m + 1)) m.storage) } := by
  refine ⟨_, handle_enqueue_eq ⟨blob, m, sends0⟩ rcp p rest hdec, ?_⟩
  rw [enqueue_msg_mod, next_timestamp_fst, next_timestamp_snd_mod,
    storedQueue_insert_ts]

theorem invoke_enqueue_step (m : ModuleState) (ts0 rcp : Nat) (p : List Nat)
    (hr : rcp < 2 ^ 32) (hp : p.length < 2 ^ 32)
    (hts : storedTimestamp m + 1 < 2 ^ 64)
    (hql : (storedQueue m).length + 1 < 2 ^ 32)
    (hwf : ∀ t ∈ storedQueue m, t.wf) :
    ∃ m', invoke m ts0 (encReq (Req.Enqueue rcp p)) = some m' ∧
      storedTimestamp m' = storedTimestamp m + 1 ∧
      storedQueue m' = storedQueue m ++ [⟨rcp, ⟨storedTimestamp m + 1, p⟩⟩] ∧
      m'.inbound = m.inbound ∧ m'.outbound = m.outbound ∧
      (∀ t ∈ storedQueue m', t.wf) := by
  have hwfNew : (⟨rcp, ⟨storedTimestamp m + 1, p⟩⟩ : TargetedMsg).wf :=
    ⟨hr, hts, hp⟩
  have hwfAll : ∀ t ∈ storedQueue m
      ++ [(⟨rcp, ⟨storedTimestamp m + 1, p⟩⟩ : TargetedMsg)], t.wf := by
    intro t ht
    rcases List.mem_append.mp ht with hmem | hmem
    · exact hwf t hmem
    · simp only [List.mem_singleton] at hmem
      subst hmem
      exact hwfNew
  have hlenAll : (storedQueue m
      ++ [(⟨rcp, ⟨storedTimestamp m + 1, p⟩⟩ : TargetedMsg)]).length
      < 2 ^ 32 := by
    simpa using hql
  obtain ⟨s', hs', hsmod⟩ := handle_enqueue_spec (encReq (Req.Enqueue rcp p))
    m [] rcp p [] (decReq_enc_enqueue rcp p hr hp)
  have hq : storedQueue s'.mod
      = storedQueue m ++ [⟨rcp, ⟨storedTimestamp m + 1, p⟩⟩] := by
    rw [hsmod]
    exact storedQueueOf_insert_self _ _ hlenAll hwfAll
  refine ⟨s'.mod, ?_, ?_, hq, ?_, ?_, ?_⟩
  · unfold invoke
    rw [hs']
    rfl
  · rw [hsmod]
    exact (storedTimestampOf_insert_queue _ _).trans
      (storedTimestampOf_insert_self _ _ hts)
  · rw [hsmod]
  · rw [hsmod]
  · intro t ht
    rw [hq] at ht
    exact hwfAll t ht

/-! ## The effect of a run of `Enqueue` invocations -/

theorem enqueueList_spec (ts0 : Nat) (reqs : List (Nat × List Nat)) :
    ∀ m : ModuleState,
    (∀ rp ∈ reqs, rp.1 < 2 ^ 32 ∧ rp.2.length < 2 ^ 32) →
    storedTimestamp m + reqs.length < 2 ^ 64 →
    (storedQueue m).length + reqs.length < 2 ^ 32 →
    (∀ t ∈ storedQueue m, t.wf) →
    ∃ m', enqueueList ts0 m reqs = some m' ∧
      storedTimestamp m' = storedTimestamp m + reqs.length ∧
      storedQueue m' = storedQueue m ++ newEntries (storedTimestamp m) reqs ∧
      m'.inbound = m.inbound ∧ m'.outbound = m.outbound := by
  induction reqs with
  | nil =>
    intro m _ _ _ _
    exact ⟨m, rfl, by simp, by simp [newEntries], rfl, rfl⟩
  | cons rp rest ih =>
    intro m hreq hts hql hwf
    obtain ⟨m₁, h1, h2, h3, h4, h5, hwf₁⟩ :=
      invoke_enqueue_step m ts0 rp.1 rp.2 (hreq rp (by simp)).1
        (hreq rp (by simp)).2 (by simp at hts; omega)
        (by simp at hql; omega) hwf
    obtain ⟨m', hr1, hr2, hr3, hr4, hr5⟩ :=
      ih m₁ (fun x hx => hreq x (by simp [hx]))
        (by rw [h2]; simp at hts ⊢; omega)
        (by rw [h3]; simp at hql ⊢; omega) hwf₁
    refine ⟨m', ?_, ?_, ?_, ?_, ?_⟩
    · simp only [enqueueList, h1]
      exact hr1
    · rw [hr2, h2]
      simp
      omega
    · rw [hr3, h3, h2]
      simp [newEntries, List.append_assoc]
    · rw [hr4, h4]
    · rw [hr5, h5]

/-! ## The effect of one `FanOut` invocation -/

theorem handle_fanout_spec (s : InvState) (m : ModuleState) (rest : List Nat)
    (hms : s.mod = m)
    (hdec : decReq s.scratch = some (Req.FanOut, rest)) :
    ∃ s', handle s = some s' ∧
      s'.sends = s.sends ++ (groupByRecepient (storedQueue m)).map
        (fun g => (g.1, encList encTimestamped g.2)) ∧
      s'.mod.storage = mapInsert KEY_QUEUE (encList encTargeted [])
        m.storage ∧
      s'.mod.inbound = m.inbound ∧
      storedQueue s'.mod = [] ∧
      (∀ r, r ∉ alKeys (groupByRecepient (storedQueue m)) →
        alLookup r s'.mod.outbound = alLookup r m.outbound) ∧
      (∀ r vs, (r, vs) ∈ groupByRecepient (storedQueue m) →
        alLookup r s'.mod.outbound = some (encList encTimestamped vs)) := by
  have hq1 : (take_queue s).1 = storedQueue m := by
    rw [take_queue_fst, hms]
  have hq2 : (take_queue s).2.mod =
      { m with
        storage := mapInsert KEY_QUEUE (encList encTargeted [])
          m.storage } := by
    rw [take_queue_snd_mod, hms]
  have hq3 : (take_queue s).2.sends = s.sends := take_queue_snd_sends s
  refine ⟨sendGroups (take_queue s).2 (groupByRecepient (take_queue s).1),
    handle_fanout_eq s rest hdec, ?_, ?_, ?_, ?_, ?_, ?_⟩
  · rw [sendGroups_sends, hq3, hq1]
  · rw [sendGroups_storage, hq2]
  · rw [sendGroups_inbound, hq2]
  · show storedQueueOf (sendGroups (take_queue s).2
      (groupByRecepient (take_queue s).1)).mod.storage = []
    rw [sendGroups_storage, hq2]
    exact storedQueueOf_insert_self m.storage [] (by norm_num) (by simp)
  · intro r hr
    rw [hq1]
    rw [sendGroups_outbound_notmem _ _ _ hr, hq2]
  · intro r vs hmem
    rw [hq1]
    exact sendGroups_outbound_mem _ _ _ _ (nodup_alKeys_groupBy _) hmem

/-! ## Claim C1 -/

/-- C1: for every runtime state and every sequence of N `Enqueue` requests
handled by one runtime (with value ranges that fit the Rust integer widths
and no `u64`/`u32` overflow), the persisted Timestamp afterwards equals its
value before plus N, the Pending Queue length equals its length before plus
N, each newly appended entry carries timestamp `pre + i + 1`, the new
entries' timestamps are strictly increasing, and (when the pre-state queue
is consistent with the counter) each new entry's timestamp strictly exceeds
every entry present before. -/
theorem enqueue_sequence_correct (ts0 : Nat) (m : ModuleState)
    (reqs : List (Nat × List Nat))
    (hreq : ∀ rp ∈ reqs, rp.1 < 2 ^ 32 ∧ rp.2.length < 2 ^ 32)
    (hts : storedTimestamp m + reqs.length < 2 ^ 64)
    (hql : (storedQueue m).length + reqs.length < 2 ^ 32)
    (hwf : ∀ t ∈ storedQueue m, t.wf)
    (hcons : ∀ t ∈ storedQueue m, t.msg.«at» ≤ storedTimestamp m) :
    ∃ m', enqueueList ts0 m reqs = some m' ∧
      storedTimestamp m' = storedTimestamp m + reqs.length ∧
      (storedQueue m').length = (storedQueue m).length + reqs.length ∧
      storedQueue m' = storedQueue m ++ newEntries (storedTimestamp m) reqs ∧
      (newEntries (storedTimestamp m) reqs).Pairwise
        (fun a b => a.msg.«at» < b.msg.«at») ∧
      (∀ told ∈ storedQueue m, ∀ tnew ∈ newEntries (storedTimestamp m) reqs,
        told.msg.«at» < tnew.msg.«at») := by
  obtain ⟨m', h1, h2, h3, _, _⟩ := enqueueList_spec ts0 reqs m hreq hts hql hwf
  refine ⟨m', h1, h2, ?_, h3, newEntries_pairwise _ _, ?_⟩
  · rw [h3]
    simp [newEntries_length]
  · intro told hold tnew hnew
    exact lt_of_le_of_lt (hcons told hold) (newEntries_at_gt _ _ tnew hnew)

theorem enqueue_sequence_correct_witness :
    ∃ m', enqueueList 0 ⟨[], [], []⟩ [(1, [10]), (2, [20])] = some m' ∧
      storedTimestamp m' = storedTimestamp ⟨[], [], []⟩ + 2 ∧
      (storedQueue m').length = (storedQueue (⟨[], [], []⟩ : ModuleState)).length + 2 ∧
      storedQueue m' = storedQueue ⟨[], [], []⟩
        ++ newEntries (storedTimestamp ⟨[], [], []⟩) [(1, [10]), (2, [20])] ∧
      (newEntries (storedTimestamp (⟨[], [], []⟩ : ModuleState))
        [(1, [10]), (2, [20])]).Pairwise
        (fun a b => a.msg.«at» < b.msg.«at») ∧
      (∀ told ∈ storedQueue (⟨[], [], []⟩ : ModuleState),
        ∀ tnew ∈ newEntries (storedTimestamp (⟨[], [], []⟩ : ModuleState))
          [(1, [10]), (2, [20])],
        told.msg.«at» < tnew.msg.«at») :=
  enqueue_sequence_correct 0 ⟨[], [], []⟩ [(1, [10]), (2, [20])]
    (by decide) (by decide) (by decide) (by decide) (by decide)

/-! ## Claim C2 -/

/-- C2: FanOut with an empty queue issues zero sends; FanOut with queued
messages {A:x, B:y, A:z} (A ≠ B) issues exactly two sends, A receiving the
encoding of its messages [x, z] in enqueue order and B the encoding of [y];
the queue is empty afterwards; and for every queue state no two sends of
one FanOut target the same recipient. -/
theorem fanout_correct :
    (∀ m : ModuleState, storedQueue m = [] →
      ∃ s', handle ⟨encReq Req.FanOut, m, []⟩ = some s' ∧ s'.sends = []) ∧
    (∀ (m : ModuleState) (A B ta tb tc : Nat) (x y z : List Nat), A ≠ B →
      storedQueue m = [⟨A, ⟨ta, x⟩⟩, ⟨B, ⟨tb, y⟩⟩, ⟨A, ⟨tc, z⟩⟩] →
      ∃ s', handle ⟨encReq Req.FanOut, m, []⟩ = some s' ∧
        s'.sends.length = 2 ∧
        (A, encList encTimestamped [⟨ta, x⟩, ⟨tc, z⟩]) ∈ s'.sends ∧
        (B, encList encTimestamped [⟨tb, y⟩]) ∈ s'.sends ∧
        storedQueue s'.mod = [] ∧
        (s'.sends.map Prod.fst).Nodup) ∧
    (∀ m : ModuleState,
      ∃ s', handle ⟨encReq Req.FanOut, m, []⟩ = some s' ∧
        storedQueue s'.mod = [] ∧ (s'.sends.map Prod.fst).Nodup) := by
  refine ⟨?_, ?_, ?_⟩
  · intro m hq
    obtain ⟨s', hh, hsends, -, -, -, -, -⟩ :=
      handle_fanout_spec ⟨encReq Req.FanOut, m, []⟩ m [] rfl decReq_enc_fanout
    refine ⟨s', hh, ?_⟩
    rw [hsends, hq]
    simp [groupByRecepient]
  · intro m A B ta tb tc x y z hAB hq
    have hg : groupByRecepient
        [⟨A, ⟨ta, x⟩⟩, ⟨B, ⟨tb, y⟩⟩, ⟨A, ⟨tc, z⟩⟩] =
        [(A, [⟨ta, x⟩, ⟨tc, z⟩]), (B, [⟨tb, y⟩])] := by
      simp [groupByRecepient, entryPush, hAB, Ne.symm hAB]
    obtain ⟨s', hh, hsends, -, -, hqueue, -, -⟩ :=
      handle_fanout_spec ⟨encReq Req.FanOut, m, []⟩ m [] rfl decReq_enc_fanout
    rw [hq, hg] at hsends
    refine ⟨s', hh, ?_, ?_, ?_, hqueue, ?_⟩
    · rw [hsends]; rfl
    · rw [hsends]; simp
    · rw [hsends]; simp
    · rw [hsends]
      simp [hAB]
  · intro m
    obtain ⟨s', hh, hsends, -, -, hqueue, -, -⟩ :=
      handle_fanout_spec ⟨encReq Req.FanOut, m, []⟩ m [] rfl decReq_enc_fanout
    refine ⟨s', hh, hqueue, ?_⟩
    rw [hsends]
    simp only [List.nil_append, List.map_map]
    have : ((groupByRecepient (storedQueue m)).map
        (Prod.fst ∘ fun g => (g.1, encList encTimestamped g.2)))
        = alKeys (groupByRecepient (storedQueue m)) := by
      simp [alKeys]
    rw [this]
    exact nodup_alKeys_groupBy _

theorem fanout_correct_witness :
    (storedQueue (⟨[(KEY_QUEUE, encList encTargeted
        [⟨5, ⟨1, [120]⟩⟩, ⟨6, ⟨2, [121]⟩⟩, ⟨5, ⟨3, [122]⟩⟩])], [], []⟩ :
        ModuleState)
      = [⟨5, ⟨1, [120]⟩⟩, ⟨6, ⟨2, [121]⟩⟩, ⟨5, ⟨3, [122]⟩⟩]) ∧
    (∃ s', handle ⟨encReq Req.FanOut,
        ⟨[(KEY_QUEUE, encList encTargeted
          [⟨5, ⟨1, [120]⟩⟩, ⟨6, ⟨2, [121]⟩⟩, ⟨5, ⟨3, [122]⟩⟩])], [], []⟩,
        []⟩ = some s' ∧
      s'.sends.length = 2 ∧
      (5, encList encTimestamped [⟨1, [120]⟩, ⟨3, [122]⟩]) ∈ s'.sends ∧
      (6, encList encTimestamped [⟨2, [121]⟩]) ∈ s'.sends ∧
      storedQueue s'.mod = [] ∧
      (s'.sends.map Prod.fst).Nodup) :=
  ⟨by decide,
   fanout_correct.2.1 _ 5 6 1 2 3 [120] [121] [122] (by decide) (by decide)⟩

/-! ## Claim C3 -/

/-- C3: for every registered-runtime set and every `call_spree` with an
in-bounds blob, a registered handle leads to exactly that runtime's
`invoke` being applied to the same blob and the unchanged time slice (all
other runtimes' states untouched), while an unregistered handle fails with
HandleNotFound (no updated runtime list is produced). -/
theorem call_spree_dispatch_correct (mem : List Nat)
    (modules : List ModuleState) (h ts bp bl : Nat) (blob : List Nat)
    (hblob : memGet mem bp bl = some blob) :
    (∀ mo, modules.get? h = some mo →
      call_spree mem modules h ts bp bl =
        (match invoke mo ts blob with
         | some m' => Except.ok (modules.set h m')
         | none => Except.error CallSpreeError.ModuleTrap) ∧
      (∀ m' j, j ≠ h → (modules.set h m').get? j = modules.get? j)) ∧
    (modules.get? h = none →
      call_spree mem modules h ts bp bl
        = Except.error CallSpreeError.HandleNotFound) := by
  constructor
  · intro mo hmo
    constructor
    · simp only [call_spree, hblob, hmo]
    · intro m' j hj
      exact List.get?_set_ne _ _ (Ne.symm hj)
  · intro hmo
    simp only [call_spree, hblob, hmo]

theorem call_spree_dispatch_correct_witness :
    (memGet [2] 0 1 = some [2]) ∧
    call_spree [2] [⟨[], [], []⟩] 0 7 0 1 =
      (match invoke ⟨[], [], []⟩ 7 [2] with
       | some m' => Except.ok ([(⟨[], [], []⟩ : ModuleState)].set 0 m')
       | none => Except.error CallSpreeError.ModuleTrap) ∧
    call_spree [2] [⟨[], [], []⟩] 5 7 0 1
      = Except.error CallSpreeError.HandleNotFound :=
  ⟨by decide,
   ((call_spree_dispatch_correct [2] [⟨[], [], []⟩] 0 7 0 1 [2]
      (by decide)).1 ⟨[], [], []⟩ (by decide)).1,
   (call_spree_dispatch_correct [2] [⟨[], [], []⟩] 5 7 0 1 [2]
      (by decide)).2 (by decide)⟩

/-! ## Claim C4 -/

/-- C4: with an unoccupied outbound slot for recipient `r`, two successive
host `send` calls to `r` within one invocation return status 0 and then a
non-zero status; the second call is not a fault (it completes with a
value), and afterwards the slot holds exactly the second payload. -/
theorem send_conflict_correct (e : HostEnv) (r p1 l1 p2 l2 : Nat)
    (b1 b2 : List Nat)
    (h1 : memGet e.mem p1 l1 = some b1) (h2 : memGet e.mem p2 l2 = some b2)
    (hfree : alLookup r e.outbound = none) :
    ∃ e1 e2 st2,
      host_send e r p1 l1 = some (e1, 0) ∧
      host_send e1 r p2 l2 = some (e2, st2) ∧ st2 ≠ 0 ∧
      alLookup r e2.outbound = some b2 := by
  refine ⟨{ e with outbound := mapInsert r b1 e.outbound },
    { e with outbound := mapInsert r b2 (mapInsert r b1 e.outbound) },
    1, ?_, ?_, one_ne_zero, ?_⟩
  · simp only [host_send, h1, hfree]
  · simp only [host_send, h2, alLookup_mapInsert_self]
  · exact alLookup_mapInsert_self r b2 (mapInsert r b1 e.outbound)

theorem send_conflict_correct_witness :
    (memGet [7, 8] 0 1 = some [7] ∧ memGet [7, 8] 1 1 = some [8]) ∧
    ∃ e1 e2 st2,
      host_send ⟨[], [7, 8], [], [], []⟩ 1 0 1 = some (e1, 0) ∧
      host_send e1 1 1 1 = some (e2, st2) ∧ st2 ≠ 0 ∧
      alLookup 1 e2.outbound = some [8] :=
  ⟨⟨by decide, by decide⟩,
   send_conflict_correct ⟨[], [7, 8], [], [], []⟩ 1 0 1 1 1 [7] [8]
     (by decide) (by decide) (by decide)⟩

/-! ## Claim C9 -/

/-- C9: a `storage_read` of an absent key returns the non-zero status and
leaves the whole environment — scratch buffer and storage included —
exactly as it was. -/
theorem storage_read_miss_frame (e : HostEnv) (kp kl : Nat) (k : List Nat)
    (hk : memGet e.mem kp kl = some k)
    (habs : alLookup k e.storage = none) :
    host_storage_read e kp kl = some (e, 1) := by
  simp only [host_storage_read, hk, habs]

theorem storage_read_miss_frame_witness :
    (memGet [7] 0 1 = some [7] ∧
      alLookup [7] (⟨[42], [7], [], [], [([9], [1])]⟩ : HostEnv).storage
        = none) ∧
    host_storage_read ⟨[42], [7], [], [], [([9], [1])]⟩ 0 1
      = some (⟨[42], [7], [], [], [([9], [1])]⟩, 1) :=
  ⟨⟨by decide, by decide⟩,
   storage_read_miss_frame ⟨[42], [7], [], [], [([9], [1])]⟩ 0 1 [7]
     (by decide) (by decide)⟩

/-! ## Claim C10 -/

/-- C10: the guest-side `send` wrapper discards the host status, so a
Conflict (occupied outbound slot) during FanOut is not observable by the
guest: the invocation still succeeds, the queue is drained, and the
previously accumulated outbound payload for that recipient is silently
replaced by the new group encoding. -/
theorem fanout_send_status_discarded (m : ModuleState) (r : Nat)
    (b : List Nat) (vs : List TimestampedMsg)
    (hocc : alLookup r m.outbound = some b)
    (hgrp : (r, vs) ∈ groupByRecepient (storedQueue m)) :
    ∃ s', handle ⟨encReq Req.FanOut, m, []⟩ = some s' ∧
      alLookup r s'.mod.outbound = some (encList encTimestamped vs) ∧
      storedQueue s'.mod = [] := by
  obtain ⟨s', hh, -, -, -, hq, -, hmem⟩ :=
    handle_fanout_spec ⟨encReq Req.FanOut, m, []⟩ m [] rfl decReq_enc_fanout
  exact ⟨s', hh, hmem r vs hgrp, hq⟩

theorem fanout_send_status_discarded_witness :
    (alLookup 5 (⟨[(KEY_QUEUE, encList encTargeted [⟨5, ⟨1, [120]⟩⟩])],
        [], [(5, [9])]⟩ : ModuleState).outbound = some [9] ∧
      (5, [(⟨1, [120]⟩ : TimestampedMsg)]) ∈ groupByRecepient
        (storedQueue ⟨[(KEY_QUEUE, encList encTargeted [⟨5, ⟨1, [120]⟩⟩])],
          [], [(5, [9])]⟩)) ∧
    ∃ s', handle ⟨encReq Req.FanOut,
        ⟨[(KEY_QUEUE, encList encTargeted [⟨5, ⟨1, [120]⟩⟩])],
          [], [(5, [9])]⟩, []⟩ = some s' ∧
      alLookup 5 s'.mod.outbound
        = some (encList encTimestamped [⟨1, [120]⟩]) ∧
      storedQueue s'.mod = [] :=
  ⟨⟨by decide, by decide⟩,
   fanout_send_status_discarded
     ⟨[(KEY_QUEUE, encList encTargeted [⟨5, ⟨1, [120]⟩⟩])], [], [(5, [9])]⟩
     5 [9] [⟨1, [120]⟩] (by decide) (by decide)⟩

/-! ## Claim C5 -/

/-- C5: after any producing host call — `poll`, a successful
`storage_read`, or the invocation-entry seeding of the buffer with the
request blob — `scratch_buf_size` returns exactly the producer's output
length and `scratch_buf_read` copies exactly that many bytes to the given
guest address; a later producing call fully replaces the prior contents
(the new contents do not depend on the old ones). -/
theorem scratch_buffer_handshake (e : HostEnv) :
    (host_poll e).scratch_buf = encList encPair e.inbound ∧
    host_scratch_buf_size (host_poll e) = (encList encPair e.inbound).length ∧
    (∀ p l key v, memGet e.mem p l = some key →
      alLookup key e.storage = some v →
      host_storage_read e p l = some ({ e with scratch_buf := v }, 0) ∧
      host_scratch_buf_size { e with scratch_buf := v } = v.length) ∧
    (∀ blob mem2 inb outb st,
      (mkHostEnv blob mem2 inb outb st).scratch_buf = blob ∧
      host_scratch_buf_size (mkHostEnv blob mem2 inb outb st)
        = blob.length) ∧
    (∀ q, q + e.scratch_buf.length ≤ e.mem.length →
      host_scratch_buf_read e q = some
        { e with
          mem := e.mem.take q ++ e.scratch_buf
            ++ e.mem.drop (q + e.scratch_buf.length) }) ∧
    (∀ old, (host_poll { e with scratch_buf := old }).scratch_buf
      = (host_poll e).scratch_buf) := by
  refine ⟨rfl, rfl, ?_, ?_, ?_, ?_⟩
  · intro p l key v hk hv
    exact ⟨by simp only [host_storage_read, hk, hv], rfl⟩
  · intro blob mem2 inb outb st
    exact ⟨rfl, rfl⟩
  · intro q hq
    simp only [host_scratch_buf_read, memSet, if_pos hq]
  · intro old
    rfl

theorem scratch_buffer_handshake_witness :
    ((memGet [5, 0, 0] 0 1 = some [5]) ∧
      alLookup [5] [([5], [9])] = some ([9] : List Nat)) ∧
    host_storage_read ⟨[1, 2], [5, 0, 0], [(3, [7])], [], [([5], [9])]⟩ 0 1
      = some (⟨[9], [5, 0, 0], [(3, [7])], [], [([5], [9])]⟩, 0) ∧
    host_scratch_buf_read ⟨[1, 2], [5, 0, 0], [(3, [7])], [], [([5], [9])]⟩ 0
      = some ⟨[1, 2], [1, 2, 0], [(3, [7])], [], [([5], [9])]⟩ :=
  ⟨⟨by decide, by decide⟩,
   ((scratch_buffer_handshake
      ⟨[1, 2], [5, 0, 0], [(3, [7])], [], [([5], [9])]⟩).2.2.1 0 1 [5] [9]
      (by decide) (by decide)).1,
   (scratch_buffer_handshake
      ⟨[1, 2], [5, 0, 0], [(3, [7])], [], [([5], [9])]⟩).2.2.2.2.1 0
      (by decide)⟩

/-! ## Claim C6 -/

/-- C6: `storage_write(k, v)` followed by a `storage_read(k)` in a later
invocation of the same runtime (same persistent storage, any fresh memory
and scratch buffer) returns status 0 with `v` in the scratch buffer, while
reading a key absent from a runtime's storage returns the non-zero
status. -/
theorem storage_roundtrip (e : HostEnv) (kp kl vp vl : Nat) (k v : List Nat)
    (hk : memGet e.mem kp kl = some k) (hv : memGet e.mem vp vl = some v) :
    ∃ e1, host_storage_write e kp kl vp vl = some e1 ∧
      e1.storage = mapInsert k v e.storage ∧
      alLookup k e1.storage = some v ∧
      (∀ (e2 : HostEnv) (kp2 kl2 : Nat), e2.storage = e1.storage →
        memGet e2.mem kp2 kl2 = some k →
        host_storage_read e2 kp2 kl2
          = some ({ e2 with scratch_buf := v }, 0)) ∧
      (∀ (e3 : HostEnv) (kp3 kl3 : Nat) (k3 : List Nat),
        memGet e3.mem kp3 kl3 = some k3 → alLookup k3 e3.storage = none →
        host_storage_read e3 kp3 kl3 = some (e3, 1)) := by
  refine ⟨{ e with storage := mapInsert k v e.storage }, ?_, rfl, ?_, ?_, ?_⟩
  · simp only [host_storage_write, hk, hv]
  · exact alLookup_mapInsert_self k v e.storage
  · intro e2 kp2 kl2 hst hk2
    have hl : alLookup k e2.storage = some v := by
      rw [hst]
      exact alLookup_mapInsert_self k v e.storage
    simp only [host_storage_read, hk2, hl]
  · intro e3 kp3 kl3 k3 hk3 habs
    simp only [host_storage_read, hk3, habs]

theorem storage_roundtrip_witness :
    (memGet [5, 9] 0 1 = some [5] ∧ memGet [5, 9] 1 1 = some [9]) ∧
    ∃ e1, host_storage_write ⟨[], [5, 9], [], [], []⟩ 0 1 1 1 = some e1 ∧
      alLookup [5] e1.storage = some [9] :=
  ⟨⟨by decide, by decide⟩, by
    obtain ⟨e1, h1, -, h3, -, -⟩ := storage_roundtrip
      ⟨[], [5, 9], [], [], []⟩ 0 1 1 1 [5] [9] (by decide) (by decide)
    exact ⟨e1, h1, h3⟩⟩

/-! ## Claim C8 -/

/-- C8: each host call that takes an (address, length) byte range —
`send`, `storage_read`, `storage_write`, the `call_spree` blob, and the
`scratch_buf_read` destination — fails (does not complete normally) when
the range exceeds the guest's linear memory, and otherwise marshalling
copies exactly the requested bytes. -/
theorem marshalling_bounds (e : HostEnv) (mem : List Nat)
    (modules : List ModuleState) :
    (∀ p l, p + l ≤ mem.length →
      memGet mem p l = some ((mem.drop p).take l) ∧
      ((mem.drop p).take l).length = l) ∧
    (∀ p l, mem.length < p + l → memGet mem p l = none) ∧
    (∀ r p l, e.mem.length < p + l → host_send e r p l = none) ∧
    (∀ p l, e.mem.length < p + l → host_storage_read e p l = none) ∧
    (∀ kp kl vp vl, e.mem.length < kp + kl ∨ e.mem.length < vp + vl →
      host_storage_write e kp kl vp vl = none) ∧
    (∀ q, e.mem.length < q + e.scratch_buf.length →
      host_scratch_buf_read e q = none) ∧
    (∀ h ts p l, mem.length < p + l →
      call_spree mem modules h ts p l
        = Except.error CallSpreeError.OutOfBounds) := by
  have hmg : ∀ p l, mem.length < p + l → memGet mem p l = none := by
    intro p l hlt
    unfold memGet
    rw [if_neg (show ¬p + l ≤ mem.length by omega)]
  have hmge : ∀ p l, e.mem.length < p + l → memGet e.mem p l = none := by
    intro p l hlt
    unfold memGet
    rw [if_neg (show ¬p + l ≤ e.mem.length by omega)]
  refine ⟨?_, hmg, ?_, ?_, ?_, ?_, ?_⟩
  · intro p l hle
    refine ⟨by simp only [memGet, if_pos hle], ?_⟩
    simp only [List.length_take, List.length_drop]
    omega
  · intro r p l hlt
    simp only [host_send, hmge p l hlt]
  · intro p l hlt
    simp only [host_storage_read, hmge p l hlt]
  · intro kp kl vp vl hor
    rcases hor with hlt | hlt
    · simp only [host_storage_write, hmge kp kl hlt]
    · rcases hmk : memGet e.mem kp kl with _ | kbuf
      · simp only [host_storage_write, hmk]
      · simp only [host_storage_write, hmk, hmge vp vl hlt]
  · intro q hlt
    unfold host_scratch_buf_read memSet
    rw [if_neg (show ¬q + e.scratch_buf.length ≤ e.mem.length by omega)]
  · intro h ts p l hlt
    simp only [call_spree, hmg p l hlt]

theorem marshalling_bounds_witness :
    (((0 : Nat) + 2 ≤ 2) ∧ ((2 : Nat) < 1 + 2) ∧ ((1 : Nat) < 0 + 2)) ∧
    memGet [1, 2] 0 2 = some [1, 2] ∧
    memGet [1, 2] 1 2 = none ∧
    host_send ⟨[9, 9, 9], [1], [], [], []⟩ 0 0 2 = none ∧
    host_storage_read ⟨[9, 9, 9], [1], [], [], []⟩ 0 2 = none ∧
    host_scratch_buf_read ⟨[9, 9, 9], [1], [], [], []⟩ 0 = none ∧
    call_spree [1, 2] [] 0 0 1 2
      = Except.error CallSpreeError.OutOfBounds :=
  ⟨⟨by decide, by decide, by decide⟩,
   ((marshalling_bounds ⟨[9, 9, 9], [1], [], [], []⟩ [1, 2] []).1 0 2
     (by decide)).1,
   (marshalling_bounds ⟨[9, 9, 9], [1], [], [], []⟩ [1, 2] []).2.1 1 2
     (by decide),
   (marshalling_bounds ⟨[9, 9, 9], [1], [], [], []⟩ [1, 2] []).2.2.1 0 0 2
     (by decide),
   (marshalling_bounds ⟨[9, 9, 9], [1], [], [], []⟩ [1, 2] []).2.2.2.1 0 2
     (by decide),
   (marshalling_bounds ⟨[9, 9, 9], [1], [], [], []⟩ [1, 2] []).2.2.2.2.2.1 0
     (by decide),
   (marshalling_bounds ⟨[9, 9, 9], [1], [], [], []⟩ [1, 2] []).2.2.2.2.2.2
     0 0 1 2 (by decide)⟩

/-! ## Claim C7 -/

/-- C7 as stated is wrong on the code: a persisted Timestamp blob that
fails to decode is NOT fatal — `current_timestamp` silently replaces it by
the default 0.  With storage holding the undecodable byte string [7] under
the timestamp key, the Enqueue invocation succeeds and records
timestamp 0 + 1 = 1. -/
theorem decode_default_fallback_cex :
    decU64 [7] = none ∧
    (invoke ⟨[(KEY_CURRENT_TIMESTAMP, [7])], [], []⟩ 0
      (encReq (Req.Enqueue 1 [42]))).isSome = true ∧
    storedTimestamp ((invoke ⟨[(KEY_CURRENT_TIMESTAMP, [7])], [], []⟩ 0
      (encReq (Req.Enqueue 1 [42]))).getD ⟨[], [], []⟩) = 1 :=
  ⟨by decide, by decide, by decide⟩

/-- C7 (amended): a decode failure of the seeded request blob is fatal to
the invocation; a decode failure of the persisted Timestamp or Pending
Queue value is not fatal — the module silently falls back to the default
value (0, resp. the empty queue). -/
theorem decode_error_policy :
    (∀ s : InvState, decReq s.scratch = none → handle s = none) ∧
    (∀ (s : InvState) (raw : List Nat),
      alLookup KEY_CURRENT_TIMESTAMP s.mod.storage = some raw →
      decU64 raw = none → (current_timestamp s).1 = 0) ∧
    (∀ (s : InvState) (raw : List Nat),
      alLookup KEY_QUEUE s.mod.storage = some raw →
      decList decTargeted raw = none → (read_queue s).1 = []) := by
  refine ⟨handle_decode_fail, ?_, ?_⟩
  · intro s raw h1 h2
    unfold current_timestamp ext_storage_read
    simp only [h1, h2]
  · intro s raw h1 h2
    unfold read_queue ext_storage_read
    simp only [h1, h2]

theorem decode_error_policy_witness :
    (decReq [99] = none ∧ decU64 [7] = none ∧
      decList decTargeted [77] = none) ∧
    handle ⟨[99], ⟨[], [], []⟩, []⟩ = none ∧
    (current_timestamp
      ⟨[], ⟨[(KEY_CURRENT_TIMESTAMP, [7])], [], []⟩, []⟩).1 = 0 ∧
    (read_queue ⟨[], ⟨[(KEY_QUEUE, [77])], [], []⟩, []⟩).1 = [] :=
  ⟨⟨by decide, by decide, by decide⟩,
   decode_error_policy.1 _ (by decide),
   decode_error_policy.2.1 _ [7] (by decide) (by decide),
   decode_error_policy.2.2 _ [77] (by decide) (by decide)⟩

end Spree
